import Mathlib

/-!
Shallow embedding, over exact rational arithmetic, of the Newton-type solver
core of the repository:

* `Gauss_Newton_Verfahren.py` — `solve_2x2`, `gauss_newton`, `gauss_newton_damped`;
* `quadratisch_konvergentes_newton_verfahren.py` — `newton_method`;
* `gedämpftes_newton_verfahren.py` — `f`, `jacobian`, `solve_linear_system`,
  and the inner backtracking loop of `damped_newton`.

The repository instantiates every solver with parameter dimension 2 (the
closed-form 2x2 solver path), so vectors are pairs of rationals and the
Jacobian of a least-squares model is a list of 2-column rows.

Euclidean norm comparisons `np.linalg.norm v < t` are embedded as the exactly
equivalent rational comparison `0 < t ∧ sumSq v < t * t` (`Real.sqrt` is
monotone and nonnegative, so for every vector `v` and threshold `t` the two
tests agree); comparisons `norm a < norm b` between two norms are embedded as
`sumSq a < sumSq b`.  History records store the squared residual norm for the
same reason: every comparison the code performs on the stored values is
reproduced exactly.

The iteration loops are stated as recursions over the per-point step and
error functions (`gnLoop`, `dgnLoop`, `newtonGo`); the solver entry points
`gauss_newton`, `gauss_newton_damped` and `newton_method` instantiate them
with the concrete residual/Jacobian/linear-solve pipeline of the source,
factored into `gnStep` and `oldErrSq`.
-/

/-- A 2x2 rational matrix with rows `[a b]` and `[c d]`. -/
structure Mat2 where
  a : ℚ
  b : ℚ
  c : ℚ
  d : ℚ
deriving DecidableEq

/-- Determinant of a 2x2 matrix, as computed in `solve_2x2` (line 20). -/
def det2 (M : Mat2) : ℚ := M.a * M.d - M.b * M.c

/-- Matrix-vector product of a 2x2 matrix with a pair. -/
def mulVec2 (M : Mat2) (v : ℚ × ℚ) : ℚ × ℚ :=
  (M.a * v.1 + M.b * v.2, M.c * v.1 + M.d * v.2)

/-- Componentwise sum of two pairs (numpy vector addition). -/
def add2 (u v : ℚ × ℚ) : ℚ × ℚ := (u.1 + v.1, u.2 + v.2)

/-- Componentwise negation of a pair (numpy `-v`). -/
def neg2 (v : ℚ × ℚ) : ℚ × ℚ := (-v.1, -v.2)

/-- Scalar multiple of a pair (numpy `t * v`). -/
def smul2 (t : ℚ) (v : ℚ × ℚ) : ℚ × ℚ := (t * v.1, t * v.2)

/-- Squared Euclidean norm of a pair. -/
def sumSq2 (v : ℚ × ℚ) : ℚ := v.1 * v.1 + v.2 * v.2

/-- Squared Euclidean norm of a rational vector given as a list. -/
def sumSqL (l : List ℚ) : ℚ := (l.map fun x => x * x).sum

/-- Absolute value on ℚ, written out as Python's `abs` computes it.  The
lemma `ratAbs_eq_abs` below identifies it with Mathlib's `|x|`. -/
def ratAbs (x : ℚ) : ℚ := if x < 0 then -x else x

/-- Sum of absolute values of a pair: the 1-norm used by `damped_newton`
(`sum(abs(f(x)[i]) for i in range(2))`). -/
def sumAbs2 (v : ℚ × ℚ) : ℚ := ratAbs v.1 + ratAbs v.2

/-- The test `np.linalg.norm v < t` for a pair, in exact arithmetic: the
Euclidean norm is nonnegative, so the comparison holds iff `t` is positive
and the squared norm is below `t * t`. -/
def normLt2 (v : ℚ × ℚ) (t : ℚ) : Prop := 0 < t ∧ sumSq2 v < t * t

instance normLt2Dec (v : ℚ × ℚ) (t : ℚ) : Decidable (normLt2 v t) :=
  inferInstanceAs (Decidable (And _ _))

/-- The errors the embedded solvers can raise: `singular` models the
`ValueError`/`LinAlgError` of a failed linear solve, `nonConvergence` the
`ValueError` raised by `newton_method` after exhausting its budget. -/
inductive NumErr where
  | singular
  | nonConvergence
deriving DecidableEq

/-- Embedding of `solve_2x2` (Gauss_Newton_Verfahren.py, lines 9-25): Cramer
formulas guarded by the fixed near-singularity threshold `1e-14`. -/
def solve_2x2 (M : Mat2) (v : ℚ × ℚ) : Option (ℚ × ℚ) :=
  if ratAbs (det2 M) < 1 / 10 ^ 14 then none
  else some ((v.1 * M.d - v.2 * M.b) / det2 M, (M.a * v.2 - M.c * v.1) / det2 M)

/-- Embedding of `solve_linear_system` (gedämpftes_newton_verfahren.py,
lines 9-16): the same Cramer formulas, but failing exactly when the
determinant is zero (`if det == 0`). -/
def solve_linear_system (M : Mat2) (v : ℚ × ℚ) : Option (ℚ × ℚ) :=
  if det2 M = 0 then none
  else some ((v.1 * M.d - v.2 * M.b) / det2 M, (M.a * v.2 - M.c * v.1) / det2 M)

/-- Embedding of `np.linalg.solve` on a 2x2 system in exact arithmetic: it
raises `LinAlgError` exactly on a singular matrix, and otherwise returns the
unique solution, which the Cramer formulas give. -/
def linalg_solve2 (M : Mat2) (v : ℚ × ℚ) : Option (ℚ × ℚ) :=
  if det2 M = 0 then none
  else some ((v.1 * M.d - v.2 * M.b) / det2 M, (M.a * v.2 - M.c * v.1) / det2 M)

/-- The data a Gauss-Newton solve closes over: the model function, its
Jacobian (rows of partial derivatives, one row per sample), and the data
vectors `x_vals`, `y_vals`. -/
structure GNCtx where
  func : ℚ × ℚ → List ℚ → List ℚ
  jac : ℚ × ℚ → List ℚ → List (ℚ × ℚ)
  xs : List ℚ
  ys : List ℚ

/-- Residual vector `y_vals - func(params, x_vals)` (line 64). -/
def residualsOf (C : GNCtx) (p : ℚ × ℚ) : List ℚ :=
  List.zipWith (fun y v => y - v) C.ys (C.func p C.xs)

/-- Normal-equation matrix `J^T J` (line 66) for a Jacobian given by rows. -/
def normalMat (rows : List (ℚ × ℚ)) : Mat2 where
  a := (rows.map fun r => r.1 * r.1).sum
  b := (rows.map fun r => r.1 * r.2).sum
  c := (rows.map fun r => r.2 * r.1).sum
  d := (rows.map fun r => r.2 * r.2).sum

/-- Right-hand side `J^T r` (line 67). -/
def rhs2 (rows : List (ℚ × ℚ)) (res : List ℚ) : ℚ × ℚ :=
  ((List.zipWith (fun row ri => row.1 * ri) rows res).sum,
   (List.zipWith (fun row ri => row.2 * ri) rows res).sum)

/-- One Gauss-Newton step at `p` (lines 64-68): solve `(J^T J) step = J^T r`
with the 2x2 closed-form solver (`solve` dispatches a 2x2 normal matrix to
`solve_2x2`).  `none` models the propagated `ValueError` of a near-singular
system. -/
def gnStep (C : GNCtx) (p : ℚ × ℚ) : Option (ℚ × ℚ) :=
  solve_2x2 (normalMat (C.jac p C.xs)) (rhs2 (C.jac p C.xs) (residualsOf C p))

/-- Squared residual norm `‖y_vals - func(params, x_vals)‖²` at `p`; the
code stores and compares `np.linalg.norm(residuals)` (lines 73, 109). -/
def oldErrSq (C : GNCtx) (p : ℚ × ℚ) : ℚ := sumSqL (residualsOf C p)

/-- One record of the undamped solver's `iteration_history` (lines 69-74).
`errSq` stores the squared residual norm where the code stores
`np.linalg.norm(residuals)`. -/
structure GNRec where
  iteration : Nat
  params : ℚ × ℚ
  step : ℚ × ℚ
  errSq : ℚ
deriving DecidableEq

/-- The undamped Gauss-Newton loop (lines 63-78) over an abstract per-point
step function and error function, with the remaining iteration budget as
fuel and the running `iteration` counter `i`. -/
def gnLoop (g : ℚ × ℚ → Option (ℚ × ℚ)) (err : ℚ × ℚ → ℚ) (tol : ℚ) :
    ℚ × ℚ → Nat → Nat → Except NumErr ((ℚ × ℚ) × List GNRec)
  | p, _, 0 => Except.ok (p, [])
  | p, i, n + 1 =>
    match g p with
    | none => Except.error NumErr.singular
    | some s =>
      if normLt2 s tol then
        Except.ok (add2 p s, [⟨i, p, s, err p⟩])
      else
        match gnLoop g err tol (add2 p s) (i + 1) n with
        | Except.error e => Except.error e
        | Except.ok (q, h) => Except.ok (q, ⟨i, p, s, err p⟩ :: h)

/-- Embedding of `gauss_newton` (lines 44-78): the loop instantiated with
the concrete normal-equation step and residual error of the source. -/
def gauss_newton (C : GNCtx) (initial_guess : ℚ × ℚ) (max_iterations : Nat)
    (tolerance : ℚ) : Except NumErr ((ℚ × ℚ) × List GNRec) :=
  gnLoop (gnStep C) (oldErrSq C) tolerance initial_guess 0 max_iterations

/-- Closed form of the sequence of undamped iterates starting at `p`:
`none` once a linear solve has failed. -/
def gnIterA (g : ℚ × ℚ → Option (ℚ × ℚ)) : ℚ × ℚ → Nat → Option (ℚ × ℚ)
  | p, 0 => some p
  | p, n + 1 =>
    match g p with
    | none => none
    | some s => gnIterA g (add2 p s) n

/-- The undamped iterate sequence of `gauss_newton` on context `C`. -/
def gnIterF (C : GNCtx) : ℚ × ℚ → Nat → Option (ℚ × ℚ) := gnIterA (gnStep C)

/-- The undamped stopping test fires at iteration `k` counted from the
start point `p`: the step at the `k`-th iterate exists and is below the
tolerance. -/
def gnSuccA (g : ℚ × ℚ → Option (ℚ × ℚ)) (tol : ℚ) (p : ℚ × ℚ) (k : Nat) : Prop :=
  ∃ q s, gnIterA g p k = some q ∧ g q = some s ∧ normLt2 s tol

/-- The stopping predicate of `gauss_newton` on context `C`. -/
def gnSucc (C : GNCtx) (tol : ℚ) (p : ℚ × ℚ) (k : Nat) : Prop :=
  gnSuccA (gnStep C) tol p k

/-- Closed form of the undamped history: the record of each executed
iteration, numbered from `i`. -/
def gnHistA (g : ℚ × ℚ → Option (ℚ × ℚ)) (err : ℚ × ℚ → ℚ) :
    ℚ × ℚ → Nat → Nat → List GNRec
  | _, _, 0 => []
  | p, i, n + 1 =>
    match g p with
    | none => []
    | some s => ⟨i, p, s, err p⟩ :: gnHistA g err (add2 p s) (i + 1) n

/-- The history of `gauss_newton` on context `C`, in closed form. -/
def gnHistC (C : GNCtx) : ℚ × ℚ → Nat → Nat → List GNRec :=
  gnHistA (gnStep C) (oldErrSq C)

/-- The damped inner backtracking loop (lines 112-121) over an abstract
error function: try the damping factors `lam, lam/2, …` for `fuel` rounds;
return the first accepted `(damping factor, trial point, trial error)`, or
`none` when no tried factor decreases the error below `oldE` (the for-else
branch of the source). -/
def dampSearch (err : ℚ × ℚ → ℚ) (p s : ℚ × ℚ) (oldE : ℚ) :
    Nat → ℚ → Option (ℚ × (ℚ × ℚ) × ℚ)
  | 0, _ => none
  | n + 1, lam =>
    if err (add2 p (smul2 lam s)) < oldE then
      some (lam, add2 p (smul2 lam s), err (add2 p (smul2 lam s)))
    else
      dampSearch err p s oldE n (lam * (1 / 2))

/-- How a damped Gauss-Newton run ended.  The Python function returns the
same tuple shape in all three cases but prints `Kein Fortschritt – Abbruch.`
on the stagnation path (line 120), which this tag makes observable. -/
inductive DGNOutcome where
  | tolSuccess
  | budget
  | stagnation
deriving DecidableEq

/-- One record of the damped solver's history (lines 123-130): pre-update
parameters, the accepted damped step `lam * step`, the squared old and new
errors, and the accepted damping factor. -/
structure DGNRec where
  iteration : Nat
  params : ℚ × ℚ
  step : ℚ × ℚ
  oldErrSq : ℚ
  newErrSq : ℚ
  damping : ℚ
deriving DecidableEq

/-- The damped Gauss-Newton loop (lines 103-134) over abstract step and
error functions, fuelled by the remaining iteration budget, with running
iteration counter `i` and `mh` halvings allowed after the full step. -/
def dgnLoop (g : ℚ × ℚ → Option (ℚ × ℚ)) (err : ℚ × ℚ → ℚ) (tol : ℚ) (mh : Nat) :
    ℚ × ℚ → Nat → Nat → Except NumErr (DGNOutcome × (ℚ × ℚ) × List DGNRec)
  | p, _, 0 => Except.ok (DGNOutcome.budget, p, [])
  | p, i, n + 1 =>
    match g p with
    | none => Except.error NumErr.singular
    | some s =>
      match dampSearch err p s (err p) (mh + 1) 1 with
      | none => Except.ok (DGNOutcome.stagnation, p, [])
      | some (lam, t, ne) =>
        if normLt2 (smul2 lam s) tol then
          Except.ok (DGNOutcome.tolSuccess, t, [⟨i, p, smul2 lam s, err p, ne, lam⟩])
        else
          match dgnLoop g err tol mh t (i + 1) n with
          | Except.error e => Except.error e
          | Except.ok (o, q, h) =>
            Except.ok (o, q, ⟨i, p, smul2 lam s, err p, ne, lam⟩ :: h)

/-- Embedding of `gauss_newton_damped` (lines 82-134). -/
def gauss_newton_damped (C : GNCtx) (initial_guess : ℚ × ℚ) (max_iterations : Nat)
    (tolerance : ℚ) (max_halving : Nat) :
    Except NumErr (DGNOutcome × (ℚ × ℚ) × List DGNRec) :=
  dgnLoop (gnStep C) (oldErrSq C) tolerance max_halving initial_guess 0 max_iterations

/-- Closed form of the damped iterates: the next point is the accepted trial
point; `none` once a solve fails or the backtracking stagnates. -/
def dgnIterA (g : ℚ × ℚ → Option (ℚ × ℚ)) (err : ℚ × ℚ → ℚ) (mh : Nat) :
    ℚ × ℚ → Nat → Option (ℚ × ℚ)
  | p, 0 => some p
  | p, n + 1 =>
    match g p with
    | none => none
    | some s =>
      match dampSearch err p s (err p) (mh + 1) 1 with
      | none => none
      | some (_, t, _) => dgnIterA g err mh t n

/-- The damped iterate sequence of `gauss_newton_damped` on context `C`. -/
def dgnIterF (C : GNCtx) (mh : Nat) : ℚ × ℚ → Nat → Option (ℚ × ℚ) :=
  dgnIterA (gnStep C) (oldErrSq C) mh

/-- The damped stopping test fires at iteration `k` from `p`: the step and
an accepted damping factor exist there and the accepted damped step is
below the tolerance. -/
def dgnSuccA (g : ℚ × ℚ → Option (ℚ × ℚ)) (err : ℚ × ℚ → ℚ) (tol : ℚ) (mh : Nat)
    (p : ℚ × ℚ) (k : Nat) : Prop :=
  ∃ q s lam t ne, dgnIterA g err mh p k = some q ∧ g q = some s ∧
    dampSearch err q s (err q) (mh + 1) 1 = some (lam, t, ne) ∧
    normLt2 (smul2 lam s) tol

/-- The stopping predicate of `gauss_newton_damped` on context `C`. -/
def dgnSucc (C : GNCtx) (tol : ℚ) (mh : Nat) (p : ℚ × ℚ) (k : Nat) : Prop :=
  dgnSuccA (gnStep C) (oldErrSq C) tol mh p k

/-- The damped solve stagnates at iteration `k` from `p`: the step exists
but no tried damping factor decreases the error. -/
def dgnStagA (g : ℚ × ℚ → Option (ℚ × ℚ)) (err : ℚ × ℚ → ℚ) (mh : Nat)
    (p : ℚ × ℚ) (k : Nat) : Prop :=
  ∃ q s, dgnIterA g err mh p k = some q ∧ g q = some s ∧
    dampSearch err q s (err q) (mh + 1) 1 = none

/-- The stagnation predicate of `gauss_newton_damped` on context `C`. -/
def dgnStag (C : GNCtx) (mh : Nat) (p : ℚ × ℚ) (k : Nat) : Prop :=
  dgnStagA (gnStep C) (oldErrSq C) mh p k

/-- Closed form of the damped history from `p`, numbered from `i`. -/
def dgnHistA (g : ℚ × ℚ → Option (ℚ × ℚ)) (err : ℚ × ℚ → ℚ) (mh : Nat) :
    ℚ × ℚ → Nat → Nat → List DGNRec
  | _, _, 0 => []
  | p, i, n + 1 =>
    match g p with
    | none => []
    | some s =>
      match dampSearch err p s (err p) (mh + 1) 1 with
      | none => []
      | some (lam, t, ne) =>
        ⟨i, p, smul2 lam s, err p, ne, lam⟩ :: dgnHistA g err mh t (i + 1) n

/-- The history of `gauss_newton_damped` on context `C`, in closed form. -/
def dgnHistC (C : GNCtx) (mh : Nat) : ℚ × ℚ → Nat → Nat → List DGNRec :=
  dgnHistA (gnStep C) (oldErrSq C) mh

/-- The root-finding Newton loop of `newton_method`
(quadratisch_konvergentes_newton_verfahren.py, lines 47-55): per iteration
compute `fx`, solve `Df(x) delta = -fx`, update `x`, then test
`‖fx‖ < tol` on the pre-update value; exhausting the budget raises. -/
def newtonGo (f : ℚ × ℚ → ℚ × ℚ) (J : ℚ × ℚ → Mat2) (tol : ℚ) :
    ℚ × ℚ → Nat → Nat → Except NumErr ((ℚ × ℚ) × Nat)
  | _, _, 0 => Except.error NumErr.nonConvergence
  | x, i, n + 1 =>
    match linalg_solve2 (J x) (neg2 (f x)) with
    | none => Except.error NumErr.singular
    | some dx =>
      if normLt2 (f x) tol then Except.ok (add2 x dx, i + 1)
      else newtonGo f J tol (add2 x dx) (i + 1) n

/-- Embedding of `newton_method` (lines 32-55). -/
def newton_method (f : ℚ × ℚ → ℚ × ℚ) (J : ℚ × ℚ → Mat2) (x0 : ℚ × ℚ)
    (tol : ℚ) (max_iter : Nat) : Except NumErr ((ℚ × ℚ) × Nat) :=
  newtonGo f J tol x0 0 max_iter

/-- Closed form of the `newton_method` iterates from `x`. -/
def newtonIterF (f : ℚ × ℚ → ℚ × ℚ) (J : ℚ × ℚ → Mat2) : ℚ × ℚ → Nat → Option (ℚ × ℚ)
  | x, 0 => some x
  | x, n + 1 =>
    match linalg_solve2 (J x) (neg2 (f x)) with
    | none => none
    | some dx => newtonIterF f J (add2 x dx) n

/-- Embedding of `f` from gedämpftes_newton_verfahren.py (lines 1-3). -/
def f_dn (x : ℚ × ℚ) : ℚ × ℚ :=
  (2 * x.1 + 4 * x.2, 4 * x.1 + 8 * x.2 ^ 3)

/-- Embedding of `jacobian` from gedämpftes_newton_verfahren.py (lines 5-7). -/
def jacobian_dn (x : ℚ × ℚ) : Mat2 :=
  ⟨2, 4, 4, 24 * x.2 ^ 2⟩

/-- The inner backtracking loop of `damped_newton` (lines 26-31), with an
explicit trial budget `fuel` added: the Python loop is `while True`, so the
Python function realizes `dnInner` at every `fuel`; it exits only when some
tried damping factor is accepted.  Acceptance compares 1-norms of `f`. -/
def dnInner (f : ℚ × ℚ → ℚ × ℚ) (x dx : ℚ × ℚ) : Nat → ℚ → Option (ℚ × (ℚ × ℚ))
  | 0, _ => none
  | n + 1, lam =>
    if sumAbs2 (f (add2 x (smul2 lam dx))) < sumAbs2 (f x) then
      some (lam, add2 x (smul2 lam dx))
    else
      dnInner f x dx n (lam / 2)

/-- Concrete least-squares fitting context used as a test vehicle: the
linear model `(a, b) ↦ a + b * x` on samples `x = [0, 1]` with data
`y = [1, 2]`.  Its Jacobian rows are `(1, x)`. -/
def fitCtx : GNCtx where
  func := fun p xs => xs.map fun x => p.1 + p.2 * x
  jac := fun _ xs => xs.map fun x => (1, x)
  xs := [0, 1]
  ys := [1, 2]

/-! ### Basic lemmas -/

lemma ratAbs_eq_abs (x : ℚ) : ratAbs x = |x| := by
  unfold ratAbs
  rcases lt_or_le x 0 with h | h
  · rw [if_pos h, abs_of_neg h]
  · rw [if_neg (not_lt.mpr h), abs_of_nonneg h]

lemma smul2_one (v : ℚ × ℚ) : smul2 1 v = v := by
  cases v
  simp [smul2]

lemma smul2_smul2 (a b : ℚ) (v : ℚ × ℚ) : smul2 a (smul2 b v) = smul2 (a * b) v := by
  cases v
  simp [smul2]
  constructor <;> ring

lemma smul2_inv_cancel (a : ℚ) (h : a ≠ 0) (v : ℚ × ℚ) :
    smul2 a⁻¹ (smul2 a v) = v := by
  rw [smul2_smul2, inv_mul_cancel₀ h, smul2_one]

lemma cramer_sound (M : Mat2) (v : ℚ × ℚ) (hdet : det2 M ≠ 0) :
    mulVec2 M ((v.1 * M.d - v.2 * M.b) / det2 M, (M.a * v.2 - M.c * v.1) / det2 M) = v := by
  obtain ⟨v1, v2⟩ := v
  unfold mulVec2 det2 at *
  dsimp
  rw [Prod.mk.injEq]
  constructor <;> (field_simp; ring)

lemma solve_2x2_sound (M : Mat2) (v x : ℚ × ℚ) (h : solve_2x2 M v = some x) :
    mulVec2 M x = v := by
  unfold solve_2x2 at h
  split at h
  · exact absurd h (by simp)
  · rename_i hd
    have hdet : det2 M ≠ 0 := by
      intro h0
      apply hd
      rw [h0, ratAbs_eq_abs]
      norm_num
    injection h with h1
    rw [← h1]
    exact cramer_sound M v hdet

lemma solve_2x2_none_iff (M : Mat2) (v : ℚ × ℚ) :
    solve_2x2 M v = none ↔ |det2 M| < 1 / 10 ^ 14 := by
  unfold solve_2x2
  rw [ratAbs_eq_abs]
  split <;> simp_all

lemma solve_linear_system_none_iff (M : Mat2) (v : ℚ × ℚ) :
    solve_linear_system M v = none ↔ det2 M = 0 := by
  unfold solve_linear_system
  split <;> simp_all

/-! ### Undamped Gauss-Newton run lemmas -/

lemma gnIterA_snoc (g : ℚ × ℚ → Option (ℚ × ℚ)) :
    ∀ (k : Nat) (p q s : ℚ × ℚ), gnIterA g p k = some q → g q = some s →
      gnIterA g p (k + 1) = some (add2 q s) := by
  intro k
  induction k with
  | zero =>
    intro p q s hq hs
    simp only [gnIterA] at hq
    injection hq with hq
    subst hq
    simp [gnIterA, hs]
  | succ k ih =>
    intro p q s hq hs
    simp only [gnIterA] at hq ⊢
    cases hp : g p with
    | none => rw [hp] at hq; simp at hq
    | some s0 =>
      rw [hp] at hq
      simp only at hq
      exact ih (add2 p s0) q s hq hs

lemma gnHistA_length (g : ℚ × ℚ → Option (ℚ × ℚ)) (err : ℚ × ℚ → ℚ) :
    ∀ (n : Nat) (p : ℚ × ℚ) (i : Nat) (q : ℚ × ℚ),
      gnIterA g p n = some q → (gnHistA g err p i n).length = n := by
  intro n
  induction n with
  | zero => intro p i q _; rfl
  | succ n ih =>
    intro p i q hq
    simp only [gnIterA] at hq
    cases hp : g p with
    | none => rw [hp] at hq; simp at hq
    | some s =>
      rw [hp] at hq
      simp only at hq
      simp only [gnHistA]
      rw [hp]
      simp only [List.length_cons]
      rw [ih (add2 p s) (i + 1) q hq]

lemma gnLoop_budget (g : ℚ × ℚ → Option (ℚ × ℚ)) (err : ℚ × ℚ → ℚ) (tol : ℚ) :
    ∀ (n : Nat) (p : ℚ × ℚ) (i : Nat) (q : ℚ × ℚ),
      gnIterA g p n = some q → (∀ k, k < n → ¬ gnSuccA g tol p k) →
      gnLoop g err tol p i n = Except.ok (q, gnHistA g err p i n) := by
  intro n
  induction n with
  | zero =>
    intro p i q hq _
    simp only [gnIterA] at hq
    injection hq with hq
    subst hq
    rfl
  | succ n ih =>
    intro p i q hq hno
    simp only [gnIterA] at hq
    cases hp : g p with
    | none => rw [hp] at hq; simp at hq
    | some s =>
      rw [hp] at hq
      simp only at hq
      have hns : ¬ normLt2 s tol := fun hml =>
        hno 0 (Nat.succ_pos n) ⟨p, s, rfl, hp, hml⟩
      have hno2 : ∀ k, k < n → ¬ gnSuccA g tol (add2 p s) k := by
        intro k hk hsucc
        obtain ⟨y, sy, hy, hgy, hny⟩ := hsucc
        exact hno (k + 1) (Nat.succ_lt_succ hk)
          ⟨y, sy, by simp only [gnIterA]; rw [hp]; exact hy, hgy, hny⟩
      simp only [gnLoop, gnHistA]
      rw [hp]
      simp only
      rw [if_neg hns]
      rw [ih (add2 p s) (i + 1) q hq hno2]

lemma gnLoop_success (g : ℚ × ℚ → Option (ℚ × ℚ)) (err : ℚ × ℚ → ℚ) (tol : ℚ) :
    ∀ (k : Nat) (p : ℚ × ℚ) (i n : Nat) (q s : ℚ × ℚ),
      k < n → gnIterA g p k = some q → g q = some s → normLt2 s tol →
      (∀ j, j < k → ¬ gnSuccA g tol p j) →
      gnLoop g err tol p i n = Except.ok (add2 q s, gnHistA g err p i (k + 1)) := by
  intro k
  induction k with
  | zero =>
    intro p i n q s hn hq hs hnl _
    obtain ⟨m, rfl⟩ : ∃ m, n = m + 1 := ⟨n - 1, by omega⟩
    simp only [gnIterA] at hq
    injection hq with hq
    subst hq
    simp only [gnLoop, gnHistA]
    rw [hs]
    simp only
    rw [if_pos hnl]
  | succ k ih =>
    intro p i n q s hn hq hs hnl hno
    obtain ⟨m, rfl⟩ : ∃ m, n = m + 1 := ⟨n - 1, by omega⟩
    simp only [gnIterA] at hq
    cases hp : g p with
    | none => rw [hp] at hq; simp at hq
    | some s0 =>
      rw [hp] at hq
      simp only at hq
      have hns : ¬ normLt2 s0 tol := fun hml =>
        hno 0 (Nat.succ_pos k) ⟨p, s0, rfl, hp, hml⟩
      have hno2 : ∀ j, j < k → ¬ gnSuccA g tol (add2 p s0) j := by
        intro j hj hsucc
        obtain ⟨y, sy, hy, hgy, hny⟩ := hsucc
        exact hno (j + 1) (Nat.succ_lt_succ hj)
          ⟨y, sy, by simp only [gnIterA]; rw [hp]; exact hy, hgy, hny⟩
      simp only [gnLoop, gnHistA]
      rw [hp]
      simp only
      rw [if_neg hns]
      rw [ih (add2 p s0) (i + 1) m q s (by omega) hq hs hnl hno2]
      rfl

/-! ### Damped Gauss-Newton run lemmas -/

lemma dampSearch_accept (err : ℚ × ℚ → ℚ) (p s : ℚ × ℚ) (oldE : ℚ) :
    ∀ (fuel : Nat) (lam l : ℚ) (t : ℚ × ℚ) (ne : ℚ),
      dampSearch err p s oldE fuel lam = some (l, t, ne) →
      ne < oldE ∧ t = add2 p (smul2 l s) ∧ ne = err t ∧
        ∃ j, j < fuel ∧ l = lam * (1 / 2) ^ j ∧
          (j = 0 → err (add2 p (smul2 lam s)) < oldE) := by
  intro fuel
  induction fuel with
  | zero => intro lam l t ne h; simp [dampSearch] at h
  | succ fuel ih =>
    intro lam l t ne h
    simp only [dampSearch] at h
    by_cases himp : err (add2 p (smul2 lam s)) < oldE
    · rw [if_pos himp] at h
      injection h with h
      simp only [Prod.mk.injEq] at h
      obtain ⟨hl, ht, hne⟩ := h
      subst hl
      refine ⟨by rw [← hne]; exact himp, by rw [← ht], by rw [← hne, ← ht],
        0, Nat.succ_pos fuel, by ring, fun _ => himp⟩
    · rw [if_neg himp] at h
      obtain ⟨hlt, ht, hne, j, hj, hl, _⟩ := ih (lam * (1 / 2)) l t ne h
      refine ⟨hlt, ht, hne, j + 1, Nat.succ_lt_succ hj, ?_,
        fun h0 => absurd h0 (Nat.succ_ne_zero j)⟩
      rw [hl]
      ring

lemma dgnHistA_length (g : ℚ × ℚ → Option (ℚ × ℚ)) (err : ℚ × ℚ → ℚ) (mh : Nat) :
    ∀ (n : Nat) (p : ℚ × ℚ) (i : Nat) (q : ℚ × ℚ),
      dgnIterA g err mh p n = some q → (dgnHistA g err mh p i n).length = n := by
  intro n
  induction n with
  | zero => intro p i q _; rfl
  | succ n ih =>
    intro p i q hq
    simp only [dgnIterA] at hq
    cases hp : g p with
    | none => rw [hp] at hq; simp at hq
    | some s =>
      rw [hp] at hq
      simp only at hq
      cases hacc : dampSearch err p s (err p) (mh + 1) 1 with
      | none => rw [hacc] at hq; simp at hq
      | some v =>
        obtain ⟨lam, t, ne⟩ := v
        rw [hacc] at hq
        simp only at hq
        simp only [dgnHistA]
        rw [hp]
        simp only
        rw [hacc]
        simp only [List.length_cons]
        rw [ih t (i + 1) q hq]

lemma dgnHistA_succ (g : ℚ × ℚ → Option (ℚ × ℚ)) (err : ℚ × ℚ → ℚ) (mh : Nat)
    (p : ℚ × ℚ) (i n : Nat) :
    dgnHistA g err mh p i (n + 1) =
      (match g p with
       | none => []
       | some s =>
         match dampSearch err p s (err p) (mh + 1) 1 with
         | none => []
         | some (lam, t, ne) =>
           ⟨i, p, smul2 lam s, err p, ne, lam⟩ :: dgnHistA g err mh t (i + 1) n) := rfl

lemma dgnHistA_snoc (g : ℚ × ℚ → Option (ℚ × ℚ)) (err : ℚ × ℚ → ℚ) (mh : Nat) :
    ∀ (k : Nat) (p : ℚ × ℚ) (i : Nat) (q s : ℚ × ℚ) (lam : ℚ) (t : ℚ × ℚ) (ne : ℚ),
      dgnIterA g err mh p k = some q → g q = some s →
      dampSearch err q s (err q) (mh + 1) 1 = some (lam, t, ne) →
      dgnHistA g err mh p i (k + 1) =
        dgnHistA g err mh p i k ++ [⟨i + k, q, smul2 lam s, err q, ne, lam⟩] := by
  intro k
  induction k with
  | zero =>
    intro p i q s lam t ne hq hs hacc
    simp only [dgnIterA] at hq
    injection hq with hq
    subst hq
    simp only [dgnHistA]
    rw [hs]
    simp only
    rw [hacc]
    simp [Nat.add_zero]
  | succ k ih =>
    intro p i q s lam t ne hq hs hacc
    simp only [dgnIterA] at hq
    cases hp : g p with
    | none => rw [hp] at hq; simp at hq
    | some s0 =>
      rw [hp] at hq
      simp only at hq
      cases hacc0 : dampSearch err p s0 (err p) (mh + 1) 1 with
      | none => rw [hacc0] at hq; simp at hq
      | some v =>
        obtain ⟨lam0, t0, ne0⟩ := v
        rw [hacc0] at hq
        simp only at hq
        rw [dgnHistA_succ g err mh p i (k + 1), dgnHistA_succ g err mh p i k]
        simp only [hp, hacc0]
        rw [ih t0 (i + 1) q s lam t ne hq hs hacc]
        have hidx : i + 1 + k = i + (k + 1) := by omega
        rw [hidx]
        simp [List.cons_append]

lemma dgnLoop_budget (g : ℚ × ℚ → Option (ℚ × ℚ)) (err : ℚ × ℚ → ℚ) (tol : ℚ) (mh : Nat) :
    ∀ (n : Nat) (p : ℚ × ℚ) (i : Nat) (q : ℚ × ℚ),
      dgnIterA g err mh p n = some q → (∀ k, k < n → ¬ dgnSuccA g err tol mh p k) →
      dgnLoop g err tol mh p i n =
        Except.ok (DGNOutcome.budget, q, dgnHistA g err mh p i n) := by
  intro n
  induction n with
  | zero =>
    intro p i q hq _
    simp only [dgnIterA] at hq
    injection hq with hq
    subst hq
    rfl
  | succ n ih =>
    intro p i q hq hno
    simp only [dgnIterA] at hq
    cases hp : g p with
    | none => rw [hp] at hq; simp at hq
    | some s =>
      rw [hp] at hq
      simp only at hq
      cases hacc : dampSearch err p s (err p) (mh + 1) 1 with
      | none => rw [hacc] at hq; simp at hq
      | some v =>
        obtain ⟨lam, t, ne⟩ := v
        rw [hacc] at hq
        simp only at hq
        have hns : ¬ normLt2 (smul2 lam s) tol := fun hml =>
          hno 0 (Nat.succ_pos n) ⟨p, s, lam, t, ne, rfl, hp, hacc, hml⟩
        have hno2 : ∀ k, k < n → ¬ dgnSuccA g err tol mh t k := by
          intro k hk hsucc
          obtain ⟨y, sy, lamy, ty, ney, hy, hgy, haccy, hny⟩ := hsucc
          refine hno (k + 1) (Nat.succ_lt_succ hk)
            ⟨y, sy, lamy, ty, ney, ?_, hgy, haccy, hny⟩
          simp only [dgnIterA]
          rw [hp]
          simp only
          rw [hacc]
          exact hy
        simp only [dgnLoop, dgnHistA]
        rw [hp]
        simp only
        rw [hacc]
        simp only
        rw [if_neg hns]
        rw [ih t (i + 1) q hq hno2]

lemma dgnLoop_success (g : ℚ × ℚ → Option (ℚ × ℚ)) (err : ℚ × ℚ → ℚ) (tol : ℚ) (mh : Nat) :
    ∀ (k : Nat) (p : ℚ × ℚ) (i n : Nat) (q s : ℚ × ℚ) (lam : ℚ) (t : ℚ × ℚ) (ne : ℚ),
      k < n → dgnIterA g err mh p k = some q → g q = some s →
      dampSearch err q s (err q) (mh + 1) 1 = some (lam, t, ne) →
      normLt2 (smul2 lam s) tol →
      (∀ j, j < k → ¬ dgnSuccA g err tol mh p j) →
      dgnLoop g err tol mh p i n =
        Except.ok (DGNOutcome.tolSuccess, t, dgnHistA g err mh p i (k + 1)) := by
  intro k
  induction k with
  | zero =>
    intro p i n q s lam t ne hn hq hs hacc hnl _
    obtain ⟨m, rfl⟩ : ∃ m, n = m + 1 := ⟨n - 1, by omega⟩
    simp only [dgnIterA] at hq
    injection hq with hq
    subst hq
    simp only [dgnLoop, dgnHistA]
    rw [hs]
    simp only
    rw [hacc]
    simp only
    rw [if_pos hnl]
  | succ k ih =>
    intro p i n q s lam t ne hn hq hs hacc hnl hno
    obtain ⟨m, rfl⟩ : ∃ m, n = m + 1 := ⟨n - 1, by omega⟩
    simp only [dgnIterA] at hq
    cases hp : g p with
    | none => rw [hp] at hq; simp at hq
    | some s0 =>
      rw [hp] at hq
      simp only at hq
      cases hacc0 : dampSearch err p s0 (err p) (mh + 1) 1 with
      | none => rw [hacc0] at hq; simp at hq
      | some v =>
        obtain ⟨lam0, t0, ne0⟩ := v
        rw [hacc0] at hq
        simp only at hq
        have hns : ¬ normLt2 (smul2 lam0 s0) tol := fun hml =>
          hno 0 (Nat.succ_pos k) ⟨p, s0, lam0, t0, ne0, rfl, hp, hacc0, hml⟩
        have hno2 : ∀ j, j < k → ¬ dgnSuccA g err tol mh t0 j := by
          intro j hj hsucc
          obtain ⟨y, sy, lamy, ty, ney, hy, hgy, haccy, hny⟩ := hsucc
          refine hno (j + 1) (Nat.succ_lt_succ hj)
            ⟨y, sy, lamy, ty, ney, ?_, hgy, haccy, hny⟩
          simp only [dgnIterA]
          rw [hp]
          simp only
          rw [hacc0]
          exact hy
        simp only [dgnLoop, dgnHistA]
        rw [hp]
        simp only
        rw [hacc0]
        simp only
        rw [if_neg hns]
        rw [ih t0 (i + 1) m q s lam t ne (by omega) hq hs hacc hnl hno2]
        rfl

lemma dgnLoop_stag (g : ℚ × ℚ → Option (ℚ × ℚ)) (err : ℚ × ℚ → ℚ) (tol : ℚ) (mh : Nat) :
    ∀ (k : Nat) (p : ℚ × ℚ) (i n : Nat) (q s : ℚ × ℚ),
      k < n → dgnIterA g err mh p k = some q → g q = some s →
      dampSearch err q s (err q) (mh + 1) 1 = none →
      (∀ j, j < k → ¬ dgnSuccA g err tol mh p j) →
      dgnLoop g err tol mh p i n =
        Except.ok (DGNOutcome.stagnation, q, dgnHistA g err mh p i k) := by
  intro k
  induction k with
  | zero =>
    intro p i n q s hn hq hs hstag _
    obtain ⟨m, rfl⟩ : ∃ m, n = m + 1 := ⟨n - 1, by omega⟩
    simp only [dgnIterA] at hq
    injection hq with hq
    subst hq
    simp only [dgnLoop, dgnHistA]
    rw [hs]
    simp only
    rw [hstag]
  | succ k ih =>
    intro p i n q s hn hq hs hstag hno
    obtain ⟨m, rfl⟩ : ∃ m, n = m + 1 := ⟨n - 1, by omega⟩
    simp only [dgnIterA] at hq
    cases hp : g p with
    | none => rw [hp] at hq; simp at hq
    | some s0 =>
      rw [hp] at hq
      simp only at hq
      cases hacc0 : dampSearch err p s0 (err p) (mh + 1) 1 with
      | none => rw [hacc0] at hq; simp at hq
      | some v =>
        obtain ⟨lam0, t0, ne0⟩ := v
        rw [hacc0] at hq
        simp only at hq
        have hns : ¬ normLt2 (smul2 lam0 s0) tol := fun hml =>
          hno 0 (Nat.succ_pos k) ⟨p, s0, lam0, t0, ne0, rfl, hp, hacc0, hml⟩
        have hno2 : ∀ j, j < k → ¬ dgnSuccA g err tol mh t0 j := by
          intro j hj hsucc
          obtain ⟨y, sy, lamy, ty, ney, hy, hgy, haccy, hny⟩ := hsucc
          refine hno (j + 1) (Nat.succ_lt_succ hj)
            ⟨y, sy, lamy, ty, ney, ?_, hgy, haccy, hny⟩
          simp only [dgnIterA]
          rw [hp]
          simp only
          rw [hacc0]
          exact hy
        simp only [dgnLoop, dgnHistA]
        rw [hp]
        simp only
        rw [hacc0]
        simp only
        rw [if_neg hns]
        rw [ih t0 (i + 1) m q s (by omega) hq hs hstag hno2]

lemma dgnLoop_rec_inv (g : ℚ × ℚ → Option (ℚ × ℚ)) (err : ℚ × ℚ → ℚ) (tol : ℚ) (mh : Nat) :
    ∀ (n : Nat) (p : ℚ × ℚ) (i : Nat) (o : DGNOutcome) (q : ℚ × ℚ) (h : List DGNRec),
      dgnLoop g err tol mh p i n = Except.ok (o, q, h) → ∀ r ∈ h,
        r.newErrSq < r.oldErrSq ∧ r.oldErrSq = err r.params ∧
        ∃ j s0, j ≤ mh ∧ r.damping = (1 / 2) ^ j ∧ g r.params = some s0 ∧
          r.step = smul2 r.damping s0 ∧
          (j = 0 → err (add2 r.params s0) < err r.params) := by
  intro n
  induction n with
  | zero =>
    intro p i o q h hrun r hr
    simp only [dgnLoop] at hrun
    injection hrun with hrun
    simp only [Prod.mk.injEq] at hrun
    obtain ⟨-, -, hh⟩ := hrun
    rw [← hh] at hr
    simp at hr
  | succ n ih =>
    intro p i o q h hrun r hr
    simp only [dgnLoop] at hrun
    cases hp : g p with
    | none => rw [hp] at hrun; simp at hrun
    | some s =>
      rw [hp] at hrun
      simp only at hrun
      cases hacc : dampSearch err p s (err p) (mh + 1) 1 with
      | none =>
        rw [hacc] at hrun
        simp only at hrun
        injection hrun with hrun
        simp only [Prod.mk.injEq] at hrun
        obtain ⟨-, -, hh⟩ := hrun
        rw [← hh] at hr
        simp at hr
      | some v =>
        obtain ⟨lam, t, ne⟩ := v
        rw [hacc] at hrun
        simp only at hrun
        obtain ⟨hlt, ht, hnee, j, hj, hl, hj0⟩ :=
          dampSearch_accept err p s (err p) (mh + 1) 1 lam t ne hacc
        have hl1 : lam = (1 / 2 : ℚ) ^ j := by rw [hl]; ring
        have hhead : ∀ r0 : DGNRec, r0 = ⟨i, p, smul2 lam s, err p, ne, lam⟩ →
            r0.newErrSq < r0.oldErrSq ∧ r0.oldErrSq = err r0.params ∧
            ∃ j0 s0, j0 ≤ mh ∧ r0.damping = (1 / 2) ^ j0 ∧ g r0.params = some s0 ∧
              r0.step = smul2 r0.damping s0 ∧
              (j0 = 0 → err (add2 r0.params s0) < err r0.params) := by
          intro r0 hr0
          subst hr0
          refine ⟨hlt, rfl, j, s, by omega, hl1, hp, rfl, fun h0 => ?_⟩
          have := hj0 h0
          rw [smul2_one] at this
          exact this
        by_cases hnl : normLt2 (smul2 lam s) tol
        · rw [if_pos hnl] at hrun
          injection hrun with hrun
          simp only [Prod.mk.injEq] at hrun
          obtain ⟨-, -, hh⟩ := hrun
          rw [← hh] at hr
          simp only [List.mem_singleton] at hr
          exact hhead r hr
        · rw [if_neg hnl] at hrun
          cases hrec : dgnLoop g err tol mh t (i + 1) n with
          | error e => rw [hrec] at hrun; simp at hrun
          | ok v2 =>
            obtain ⟨o2, q2, h2⟩ := v2
            rw [hrec] at hrun
            simp only at hrun
            injection hrun with hrun
            simp only [Prod.mk.injEq] at hrun
            obtain ⟨-, -, hh⟩ := hrun
            rw [← hh] at hr
            rcases List.mem_cons.mp hr with hr1 | hr2
            · exact hhead r hr1
            · exact ih t (i + 1) o2 q2 h2 hrec r hr2

/-! ### Root-finding Newton lemmas -/

lemma newtonGo_nonconv_iff (f : ℚ × ℚ → ℚ × ℚ) (J : ℚ × ℚ → Mat2) (tol : ℚ) :
    ∀ (n : Nat) (x : ℚ × ℚ) (i : Nat),
      newtonGo f J tol x i n = Except.error NumErr.nonConvergence ↔
        ((newtonIterF f J x n).isSome ∧
          ∀ k, k < n → ∀ y, newtonIterF f J x k = some y → ¬ normLt2 (f y) tol) := by
  intro n
  induction n with
  | zero =>
    intro x i
    simp [newtonGo, newtonIterF]
  | succ n ih =>
    intro x i
    simp only [newtonGo, newtonIterF]
    cases hs : linalg_solve2 (J x) (neg2 (f x)) with
    | none => simp
    | some dx =>
      simp only
      by_cases ht : normLt2 (f x) tol
      · rw [if_pos ht]
        constructor
        · intro hcon; exact absurd hcon (by simp)
        · rintro ⟨-, hall⟩
          exact absurd ht (hall 0 (Nat.succ_pos n) x rfl)
      · rw [if_neg ht]
        rw [ih (add2 x dx) (i + 1)]
        apply and_congr_right
        intro _
        constructor
        · intro hP k hk y hy
          cases k with
          | zero =>
            simp only [newtonIterF] at hy
            injection hy with hy
            subst hy
            exact ht
          | succ k2 =>
            have hy2 : newtonIterF f J (add2 x dx) k2 = some y := by
              simp only [newtonIterF] at hy
              rw [hs] at hy
              exact hy
            exact hP k2 (by omega) y hy2
        · intro hQ k hk y hy
          apply hQ (k + 1) (by omega) y
          simp only [newtonIterF]
          rw [hs]
          exact hy

lemma newtonGo_success (f : ℚ × ℚ → ℚ × ℚ) (J : ℚ × ℚ → Mat2) (tol : ℚ) :
    ∀ (k : Nat) (x : ℚ × ℚ) (i n : Nat) (y dx : ℚ × ℚ),
      k < n → newtonIterF f J x k = some y →
      linalg_solve2 (J y) (neg2 (f y)) = some dx → normLt2 (f y) tol →
      (∀ j, j < k → ∀ z, newtonIterF f J x j = some z → ¬ normLt2 (f z) tol) →
      newtonGo f J tol x i n = Except.ok (add2 y dx, i + k + 1) := by
  intro k
  induction k with
  | zero =>
    intro x i n y dx hn hy hs ht _
    obtain ⟨m, rfl⟩ : ∃ m, n = m + 1 := ⟨n - 1, by omega⟩
    simp only [newtonIterF] at hy
    injection hy with hy
    subst hy
    simp only [newtonGo]
    rw [hs]
    simp only
    rw [if_pos ht]
  | succ k ih =>
    intro x i n y dx hn hy hs ht hno
    obtain ⟨m, rfl⟩ : ∃ m, n = m + 1 := ⟨n - 1, by omega⟩
    simp only [newtonIterF] at hy
    cases hsx : linalg_solve2 (J x) (neg2 (f x)) with
    | none => rw [hsx] at hy; simp at hy
    | some dx0 =>
      rw [hsx] at hy
      simp only at hy
      have htx : ¬ normLt2 (f x) tol := hno 0 (Nat.succ_pos k) x rfl
      have hno2 : ∀ j, j < k → ∀ z, newtonIterF f J (add2 x dx0) j = some z →
          ¬ normLt2 (f z) tol := by
        intro j hj z hz
        apply hno (j + 1) (Nat.succ_lt_succ hj) z
        simp only [newtonIterF]
        rw [hsx]
        exact hz
      simp only [newtonGo]
      rw [hsx]
      simp only
      rw [if_neg htx]
      rw [ih (add2 x dx0) (i + 1) m y dx (by omega) hy hs ht hno2]
      have : i + 1 + k + 1 = i + (k + 1) + 1 := by omega
      rw [this]

/-! ### Damped-Newton inner-loop lemmas -/

lemma dnInner_stuck : ∀ (n : Nat) (lam : ℚ), dnInner f_dn (0, 0) (0, 0) n lam = none := by
  intro n
  induction n with
  | zero => intro lam; rfl
  | succ n ih =>
    intro lam
    simp only [dnInner]
    have h1 : add2 (0, 0) (smul2 lam ((0 : ℚ), (0 : ℚ))) = ((0 : ℚ), (0 : ℚ)) := by
      simp [add2, smul2]
    rw [h1]
    rw [if_neg (lt_irrefl _)]
    exact ih (lam / 2)

lemma gnSuccA_iff_of (g : ℚ × ℚ → Option (ℚ × ℚ)) (tol : ℚ) (p : ℚ × ℚ) (k : Nat)
    (q s : ℚ × ℚ) (hq : gnIterA g p k = some q) (hs : g q = some s) :
    gnSuccA g tol p k ↔ normLt2 s tol := by
  constructor
  · rintro ⟨q2, s2, hq2, hs2, hnl⟩
    rw [hq] at hq2
    injection hq2 with hq2
    subst hq2
    rw [hs] at hs2
    injection hs2 with hs2
    subst hs2
    exact hnl
  · intro hnl
    exact ⟨q, s, hq, hs, hnl⟩

lemma dgnSuccA_iff_of (g : ℚ × ℚ → Option (ℚ × ℚ)) (err : ℚ × ℚ → ℚ) (tol : ℚ)
    (mh : Nat) (p : ℚ × ℚ) (k : Nat) (q s : ℚ × ℚ) (lam : ℚ) (t : ℚ × ℚ) (ne : ℚ)
    (hq : dgnIterA g err mh p k = some q) (hs : g q = some s)
    (hacc : dampSearch err q s (err q) (mh + 1) 1 = some (lam, t, ne)) :
    dgnSuccA g err tol mh p k ↔ normLt2 (smul2 lam s) tol := by
  constructor
  · rintro ⟨q2, s2, lam2, t2, ne2, hq2, hs2, hacc2, hnl⟩
    rw [hq] at hq2
    injection hq2 with hq2
    subst hq2
    rw [hs] at hs2
    injection hs2 with hs2
    subst hs2
    rw [hacc] at hacc2
    injection hacc2 with hacc2
    simp only [Prod.mk.injEq] at hacc2
    obtain ⟨h1, -, -⟩ := hacc2
    subst h1
    exact hnl
  · intro hnl
    exact ⟨q, s, lam, t, ne, hq, hs, hacc, hnl⟩

lemma dgnIterA_snoc (g : ℚ × ℚ → Option (ℚ × ℚ)) (err : ℚ × ℚ → ℚ) (mh : Nat) :
    ∀ (k : Nat) (p q s : ℚ × ℚ) (lam : ℚ) (t : ℚ × ℚ) (ne : ℚ),
      dgnIterA g err mh p k = some q → g q = some s →
      dampSearch err q s (err q) (mh + 1) 1 = some (lam, t, ne) →
      dgnIterA g err mh p (k + 1) = some t := by
  intro k
  induction k with
  | zero =>
    intro p q s lam t ne hq hs hacc
    simp only [dgnIterA] at hq
    injection hq with hq
    subst hq
    simp only [dgnIterA]
    rw [hs]
    simp only
    rw [hacc]
  | succ k ih =>
    intro p q s lam t ne hq hs hacc
    simp only [dgnIterA] at hq ⊢
    cases hp : g p with
    | none => rw [hp] at hq; simp at hq
    | some s0 =>
      rw [hp] at hq
      simp only at hq ⊢
      cases hacc0 : dampSearch err p s0 (err p) (mh + 1) 1 with
      | none => rw [hacc0] at hq; simp at hq
      | some v =>
        obtain ⟨lam0, t0, ne0⟩ := v
        rw [hacc0] at hq
        simp only at hq
        exact ih t0 q s lam t ne hq hs hacc

/-! ### Concrete evaluations on the test context -/

lemma fit_resid0 : residualsOf fitCtx (0, 0) = [1, 2] := by
  norm_num [residualsOf, fitCtx, List.zipWith]

lemma fit_resid1 : residualsOf fitCtx (1, 1) = [0, 0] := by
  norm_num [residualsOf, fitCtx, List.zipWith]

lemma fit_err0 : oldErrSq fitCtx (0, 0) = 5 := by
  norm_num [oldErrSq, fit_resid0, sumSqL, -Prod.mk_zero_zero, -Prod.mk_one_one]

lemma fit_err1 : oldErrSq fitCtx (1, 1) = 0 := by
  norm_num [oldErrSq, fit_resid1, sumSqL, -Prod.mk_zero_zero, -Prod.mk_one_one]

lemma fit_jac (p : ℚ × ℚ) : fitCtx.jac p fitCtx.xs = [(1, 0), (1, 1)] := by
  norm_num [fitCtx, -Prod.mk_zero_zero, -Prod.mk_one_one]

lemma fit_step0 : gnStep fitCtx (0, 0) = some (1, 1) := by
  simp only [gnStep, fit_jac, fit_resid0]
  norm_num [solve_2x2, normalMat, rhs2, det2, ratAbs, List.zipWith,
    -Prod.mk_zero_zero, -Prod.mk_one_one]

lemma fit_step1 : gnStep fitCtx (1, 1) = some (0, 0) := by
  simp only [gnStep, fit_jac, fit_resid1]
  norm_num [solve_2x2, normalMat, rhs2, det2, ratAbs, List.zipWith,
    -Prod.mk_zero_zero, -Prod.mk_one_one]

lemma fit_iter1 : gnIterF fitCtx (0, 0) 1 = some (1, 1) := by
  norm_num [gnIterF, gnIterA, fit_step0, add2, -Prod.mk_zero_zero, -Prod.mk_one_one]

lemma fit_search0 : dampSearch (oldErrSq fitCtx) (0, 0) (1, 1) 5 9 1 = some (1, (1, 1), 0) := by
  simp only [dampSearch]
  have htrial : add2 (0, 0) (smul2 1 (1, 1)) = ((1 : ℚ), (1 : ℚ)) := by
    norm_num [add2, smul2, -Prod.mk_one_one, -Prod.mk_zero_zero]
  rw [htrial]
  rw [fit_err1]
  norm_num

lemma fit_search1 : dampSearch (oldErrSq fitCtx) (1, 1) (0, 0) 0 9 1 = none := by
  norm_num [dampSearch, add2, smul2, fit_err1, -Prod.mk_zero_zero, -Prod.mk_one_one]

lemma fit_diter1 : dgnIterF fitCtx 8 (0, 0) 1 = some (1, 1) := by
  norm_num [dgnIterF, dgnIterA, fit_step0, fit_err0, fit_search0, add2,
    -Prod.mk_zero_zero, -Prod.mk_one_one]

lemma fit_dhist1 : dgnHistC fitCtx 8 (0, 0) 0 1 = [⟨0, (0, 0), (1, 1), 5, 0, 1⟩] := by
  norm_num [dgnHistC, dgnHistA, fit_step0, fit_err0, fit_search0, smul2_one,
    -Prod.mk_zero_zero, -Prod.mk_one_one]

lemma fit_ghist1 : gnHistC fitCtx (0, 0) 0 1 = [⟨0, (0, 0), (1, 1), 5⟩] := by
  norm_num [gnHistC, gnHistA, fit_step0, fit_err0, -Prod.mk_zero_zero, -Prod.mk_one_one]

lemma fit_ghist2 : gnHistC fitCtx (0, 0) 0 2 =
    [⟨0, (0, 0), (1, 1), 5⟩, ⟨1, (1, 1), (0, 0), 0⟩] := by
  norm_num [gnHistC, gnHistA, fit_step0, fit_step1, fit_err0, fit_err1, add2,
    -Prod.mk_zero_zero, -Prod.mk_one_one]

lemma fit_nosucc_gn (tol : ℚ) (htol : ¬ normLt2 (1, 1) tol) :
    ∀ j, j < 1 → ¬ gnSucc fitCtx tol (0, 0) j := by
  intro j hj
  have hj0 : j = 0 := by omega
  subst hj0
  rw [show gnSucc fitCtx tol (0, 0) 0 ↔ normLt2 (1, 1) tol from
    gnSuccA_iff_of (gnStep fitCtx) tol (0, 0) 0 (0, 0) (1, 1) rfl fit_step0]
  exact htol

lemma fit_searchP0 : dampSearch (oldErrSq fitCtx) (0, 0) (1, 1)
    (oldErrSq fitCtx (0, 0)) (8 + 1) 1 = some (1, (1, 1), 0) := by
  rw [fit_err0]
  exact fit_search0

lemma fit_searchP1 : dampSearch (oldErrSq fitCtx) (1, 1) (0, 0)
    (oldErrSq fitCtx (1, 1)) (8 + 1) 1 = none := by
  rw [fit_err1]
  exact fit_search1

lemma fit_nosucc_dgn (tol : ℚ) (htol : ¬ normLt2 (smul2 1 (1, 1)) tol) :
    ∀ j, j < 1 → ¬ dgnSucc fitCtx tol 8 (0, 0) j := by
  intro j hj
  have hj0 : j = 0 := by omega
  subst hj0
  rw [show dgnSucc fitCtx tol 8 (0, 0) 0 ↔ normLt2 (smul2 1 (1, 1)) tol from
    dgnSuccA_iff_of (gnStep fitCtx) (oldErrSq fitCtx) tol 8 (0, 0) 0 (0, 0) (1, 1)
      1 (1, 1) 0 rfl fit_step0 fit_searchP0]
  exact htol

/-! ### The claims -/

/-- Claim C1: each undamped Gauss-Newton iteration computes the residual
`r = y_vals - func(params)` and a step solving the normal equations
`(J^T J) step = J^T r` through the linear solver; if the step norm is below
the tolerance it returns `params + step` with the history, and if no
iteration within `max_iterations` passes the test it returns the parameters
after `max_iterations` updates and the full (length `max_iterations`)
history without raising. -/
theorem claim_c1 (C : GNCtx) (p0 : ℚ × ℚ) (n : Nat) (tol : ℚ) :
    (∀ p s, gnStep C p = some s →
        mulVec2 (normalMat (C.jac p C.xs)) s = rhs2 (C.jac p C.xs) (residualsOf C p)) ∧
    (∀ q, gnIterF C p0 n = some q → (∀ k, k < n → ¬ gnSucc C tol p0 k) →
        gauss_newton C p0 n tol = Except.ok (q, gnHistC C p0 0 n) ∧
          (gnHistC C p0 0 n).length = n) ∧
    (∀ k q s, k < n → gnIterF C p0 k = some q → gnStep C q = some s → normLt2 s tol →
        (∀ j, j < k → ¬ gnSucc C tol p0 j) →
        gauss_newton C p0 n tol = Except.ok (add2 q s, gnHistC C p0 0 (k + 1)) ∧
          (gnHistC C p0 0 (k + 1)).length = k + 1) := by
  refine ⟨?_, ?_, ?_⟩
  · intro p s hs
    exact solve_2x2_sound _ _ _ hs
  · intro q hq hno
    exact ⟨gnLoop_budget (gnStep C) (oldErrSq C) tol n p0 0 q hq hno,
      gnHistA_length (gnStep C) (oldErrSq C) n p0 0 q hq⟩
  · intro k q s hk hq hs hnl hno
    refine ⟨gnLoop_success (gnStep C) (oldErrSq C) tol k p0 0 n q s hk hq hs hnl hno, ?_⟩
    exact gnHistA_length (gnStep C) (oldErrSq C) (k + 1) p0 0 (add2 q s)
      (gnIterA_snoc (gnStep C) k p0 q s hq hs)

/-- Witness for C1: on the linear test model, a one-iteration budget run
returns the once-updated parameters with one record, and a three-iteration
run stops at iteration 1 whose step is below tolerance, returning
`params + step` with two records. -/
theorem claim_c1_w :
    gauss_newton fitCtx (0, 0) 1 (1 / 1000) =
      Except.ok ((1, 1), [GNRec.mk 0 (0, 0) (1, 1) 5]) ∧
    gauss_newton fitCtx (0, 0) 3 (1 / 1000) =
      Except.ok ((1, 1), [GNRec.mk 0 (0, 0) (1, 1) 5, GNRec.mk 1 (1, 1) (0, 0) 0]) := by
  constructor
  · have h := (claim_c1 fitCtx (0, 0) 1 (1 / 1000)).2.1 (1, 1) fit_iter1
      (fit_nosucc_gn (1 / 1000) (by norm_num [normLt2, sumSq2]))
    have h1 := h.1
    rw [fit_ghist1] at h1
    exact h1
  · have h := (claim_c1 fitCtx (0, 0) 3 (1 / 1000)).2.2 1 (1, 1) (0, 0) (by omega)
      fit_iter1 fit_step1 (by norm_num [normLt2, sumSq2])
      (fit_nosucc_gn (1 / 1000) (by norm_num [normLt2, sumSq2]))
    have h1 := h.1
    rw [show (1 : ℕ) + 1 = 2 from rfl] at h1
    rw [fit_ghist2] at h1
    rw [show add2 ((1 : ℚ), (1 : ℚ)) (0, 0) = (1, 1) from by
      norm_num [add2, -Prod.mk_one_one, -Prod.mk_zero_zero]] at h1
    exact h1

/-- Claim C2: in every damped Gauss-Newton run, each history record has
`new_error` strictly below `old_error` (squared norms, equivalently norms);
the damping factor is in `(0, 1]`, and whenever the full step `λ = 1` would
not decrease the residual norm, the accepted damping factor is strictly
below 1. -/
theorem claim_c2 (C : GNCtx) (p0 : ℚ × ℚ) (n : Nat) (tol : ℚ) (mh : Nat)
    (o : DGNOutcome) (q : ℚ × ℚ) (h : List DGNRec) (r : DGNRec)
    (hrun : gauss_newton_damped C p0 n tol mh = Except.ok (o, q, h)) (hr : r ∈ h) :
    r.newErrSq < r.oldErrSq ∧ 0 < r.damping ∧ r.damping ≤ 1 ∧
      (¬ oldErrSq C (add2 r.params (smul2 r.damping⁻¹ r.step)) < r.oldErrSq →
        r.damping < 1) := by
  obtain ⟨hlt, holdE, j, s0, hjle, hdamp, hg, hstep, hj0⟩ :=
    dgnLoop_rec_inv (gnStep C) (oldErrSq C) tol mh n p0 0 o q h hrun r hr
  have hdpos : 0 < r.damping := by
    rw [hdamp]
    positivity
  have hdle : r.damping ≤ 1 := by
    rw [hdamp]
    exact pow_le_one₀ (by norm_num) (by norm_num)
  refine ⟨hlt, hdpos, hdle, ?_⟩
  intro hnoimp
  have hfull : add2 r.params (smul2 r.damping⁻¹ r.step) = add2 r.params s0 := by
    rw [hstep, smul2_inv_cancel _ (ne_of_gt hdpos)]
  rw [hfull, holdE] at hnoimp
  have hjne : j ≠ 0 := fun h0 => hnoimp (hj0 h0)
  rw [hdamp]
  calc (1 / 2 : ℚ) ^ j ≤ (1 / 2) ^ 1 :=
        pow_le_pow_of_le_one (by norm_num) (by norm_num) (by omega)
    _ < 1 := by norm_num

/-- Witness for C2: the record of the accepted full step on the test model
satisfies the monotone-decrease invariant. -/
theorem claim_c2_w :
    (DGNRec.mk 0 (0, 0) (1, 1) 5 0 1).newErrSq < (DGNRec.mk 0 (0, 0) (1, 1) 5 0 1).oldErrSq ∧
    0 < (DGNRec.mk 0 (0, 0) (1, 1) 5 0 1).damping ∧
    (DGNRec.mk 0 (0, 0) (1, 1) 5 0 1).damping ≤ 1 ∧
    (¬ oldErrSq fitCtx (add2 (DGNRec.mk 0 (0, 0) (1, 1) 5 0 1).params
        (smul2 (DGNRec.mk 0 (0, 0) (1, 1) 5 0 1).damping⁻¹
          (DGNRec.mk 0 (0, 0) (1, 1) 5 0 1).step)) <
        (DGNRec.mk 0 (0, 0) (1, 1) 5 0 1).oldErrSq →
      (DGNRec.mk 0 (0, 0) (1, 1) 5 0 1).damping < 1) := by
  have hrun := dgnLoop_budget (gnStep fitCtx) (oldErrSq fitCtx) (1 / 1000) 8 1 (0, 0) 0
    (1, 1) fit_diter1 (fit_nosucc_dgn (1 / 1000) (by norm_num [normLt2, sumSq2, smul2]))
  rw [show dgnHistA (gnStep fitCtx) (oldErrSq fitCtx) 8 (0, 0) 0 1 =
      [DGNRec.mk 0 (0, 0) (1, 1) 5 0 1] from fit_dhist1] at hrun
  exact claim_c2 fitCtx (0, 0) 1 (1 / 1000) 8 DGNOutcome.budget (1, 1)
    [DGNRec.mk 0 (0, 0) (1, 1) 5 0 1] (DGNRec.mk 0 (0, 0) (1, 1) 5 0 1) hrun
    (List.mem_singleton.mpr rfl)

/-- Claim C3 (corrected): in `gauss_newton_damped` the inner backtracking
loop indeed tries at most `max_halving + 1` damping factors
`1, 1/2, 1/4, …` (any accepted factor is `(1/2)^j` with `j ≤ max_halving`),
but in `damped_newton` the inner loop is an unbounded `while True` loop: at
the reachable state `x = (0,0)`, `delta = (0,0)`, it accepts no damping
factor within any number of trials, hence never terminates. -/
theorem claim_c3 (mh : Nat) :
    (∀ (err : ℚ × ℚ → ℚ) (p s : ℚ × ℚ) (oldE l : ℚ) (t : ℚ × ℚ) (ne : ℚ),
      dampSearch err p s oldE (mh + 1) 1 = some (l, t, ne) →
      ∃ j, j ≤ mh ∧ l = (1 / 2) ^ j) ∧
    (∀ (fuel : Nat) (lam : ℚ), dnInner f_dn (0, 0) (0, 0) fuel lam = none) := by
  constructor
  · intro err p s oldE l t ne hacc
    obtain ⟨-, -, -, j, hj, hl, -⟩ :=
      dampSearch_accept err p s oldE (mh + 1) 1 l t ne hacc
    refine ⟨j, by omega, ?_⟩
    rw [hl]
    ring
  · exact dnInner_stuck

/-- Counterexample to C3 as stated: in `damped_newton`, starting at the
root `(0, 0)` of the script's own `f`, the Newton step is `(0, 0)` and the
inner backtracking loop rejects all of the first `9 = max_halving + 1`
damping factors (indeed all factors), so it is not bounded by
`max_halving + 1` trials and does not terminate. -/
theorem claim_c3_cx :
    f_dn (0, 0) = (0, 0) ∧
    solve_linear_system (jacobian_dn (0, 0)) (neg2 (f_dn (0, 0))) = some (0, 0) ∧
    dnInner f_dn (0, 0) (0, 0) 9 1 = none := by
  refine ⟨?_, ?_, dnInner_stuck 9 1⟩
  · norm_num [f_dn, -Prod.mk_zero_zero]
  · norm_num [f_dn, jacobian_dn, neg2, solve_linear_system, det2, -Prod.mk_zero_zero]

/-- Witness for C3 (amended): the bounded search of `gauss_newton_damped`
accepts the full step on the test model (damping factor `1 = (1/2)^0`), and
the `damped_newton` inner loop at the stuck state returns no acceptance in
9 trials. -/
theorem claim_c3_w :
    (∃ j, j ≤ 8 ∧ (1 : ℚ) = (1 / 2) ^ j) ∧ dnInner f_dn (0, 0) (0, 0) 9 1 = none :=
  ⟨(claim_c3 8).1 (oldErrSq fitCtx) (0, 0) (1, 1) (oldErrSq fitCtx (0, 0)) 1 (1, 1) 0
      fit_searchP0,
    (claim_c3 8).2 9 1⟩

/-- Claim C4: when at some iteration no tried damping factor decreases the
error (and no earlier iteration terminated), the damped solver returns the
pre-step parameter vector with the history accumulated so far (length `k`,
the number of completed iterations), tagged as stagnation — an outcome
distinct from budget exhaustion — without applying an update or raising. -/
theorem claim_c4 (C : GNCtx) (p0 : ℚ × ℚ) (n : Nat) (tol : ℚ) (mh k : Nat) (q : ℚ × ℚ)
    (hk : k < n) (hq : dgnIterF C mh p0 k = some q) (hstag : dgnStag C mh p0 k)
    (hno : ∀ j, j < k → ¬ dgnSucc C tol mh p0 j) :
    gauss_newton_damped C p0 n tol mh =
      Except.ok (DGNOutcome.stagnation, q, dgnHistC C mh p0 0 k) ∧
    (dgnHistC C mh p0 0 k).length = k ∧
    DGNOutcome.stagnation ≠ DGNOutcome.budget := by
  obtain ⟨q2, s, hq2, hs, hsearch⟩ := hstag
  have hq2f : dgnIterA (gnStep C) (oldErrSq C) mh p0 k = some q := hq
  rw [hq2f] at hq2
  injection hq2 with hq2
  subst hq2
  refine ⟨?_, ?_, by simp⟩
  · exact dgnLoop_stag (gnStep C) (oldErrSq C) tol mh k p0 0 n q s hk hq2f hs hsearch hno
  · exact dgnHistA_length (gnStep C) (oldErrSq C) mh k p0 0 q hq2f

/-- Witness for C4: on the test model from `(0,0)` with a tight tolerance,
iteration 0 is accepted and iteration 1 stagnates (the step is `(0,0)` and
no damping factor decreases the zero residual error), so the run returns
the pre-step parameters `(1,1)` and the single accumulated record. -/
theorem claim_c4_w :
    gauss_newton_damped fitCtx (0, 0) 2 (1 / 1000) 8 =
      Except.ok (DGNOutcome.stagnation, (1, 1), [DGNRec.mk 0 (0, 0) (1, 1) 5 0 1]) := by
  have h := claim_c4 fitCtx (0, 0) 2 (1 / 1000) 8 1 (1, 1) (by omega) fit_diter1
    ⟨(1, 1), (0, 0), fit_diter1, fit_step1, fit_searchP1⟩
    (fit_nosucc_dgn (1 / 1000) (by norm_num [normLt2, sumSq2, smul2]))
  have h1 := h.1
  rw [fit_dhist1] at h1
  exact h1

/-- Claim C5 (corrected): the repository has two 2x2 linear solvers with
different failure conditions.  `solve_2x2` fails exactly when
`|det(A)| < 1e-14`; `solve_linear_system` fails exactly when `det(A) = 0`;
for `A = [[1,2],[2,4]]` (determinant zero) both fail for every right-hand
side. -/
theorem claim_c5 :
    (∀ (M : Mat2) (v : ℚ × ℚ), solve_2x2 M v = none ↔ |det2 M| < 1 / 10 ^ 14) ∧
    (∀ (M : Mat2) (v : ℚ × ℚ), solve_linear_system M v = none ↔ det2 M = 0) ∧
    (∀ v : ℚ × ℚ, solve_2x2 ⟨1, 2, 2, 4⟩ v = none ∧
      solve_linear_system ⟨1, 2, 2, 4⟩ v = none) := by
  refine ⟨solve_2x2_none_iff, solve_linear_system_none_iff, ?_⟩
  intro v
  constructor
  · rw [solve_2x2_none_iff]
    rw [show det2 ⟨1, 2, 2, 4⟩ = 0 from by norm_num [det2]]
    norm_num
  · rw [solve_linear_system_none_iff]
    norm_num [det2]

/-- Counterexample to C5 as stated: the cited solver `solve_linear_system`
succeeds on a matrix whose determinant has absolute value below `1e-14`, so
"the 2x2 linear solver fails (raises) exactly when `|det(A)| < 1e-14`" is
false for it. -/
theorem claim_c5_cx :
    |det2 (Mat2.mk (1 / 10 ^ 20) 0 0 1)| < 1 / 10 ^ 14 ∧
    solve_linear_system (Mat2.mk (1 / 10 ^ 20) 0 0 1) (1, 1) = some (10 ^ 20, 1) := by
  constructor
  · rw [show det2 (Mat2.mk (1 / 10 ^ 20) 0 0 1) = 1 / 10 ^ 20 from by norm_num [det2]]
    rw [abs_of_pos (by norm_num)]
    norm_num
  · norm_num [solve_linear_system, det2, -Prod.mk_one_one]

/-- Claim C6: whenever `solve_2x2` returns a solution (the determinant is
not flagged as near-singular), that solution exactly satisfies `A x = b` in
rational arithmetic. -/
theorem claim_c6 (M : Mat2) (v x : ℚ × ℚ) (h : solve_2x2 M v = some x) :
    mulVec2 M x = v :=
  solve_2x2_sound M v x h

/-- Witness for C6: `A = [[2,0],[0,3]]`, `b = (4,9)` gives `x = (2,3)` and
`A x = b`. -/
theorem claim_c6_w :
    solve_2x2 ⟨2, 0, 0, 3⟩ (4, 9) = some (2, 3) ∧
    mulVec2 ⟨2, 0, 0, 3⟩ (2, 3) = (4, 9) := by
  have hs : solve_2x2 ⟨2, 0, 0, 3⟩ (4, 9) = some (2, 3) := by
    norm_num [solve_2x2, det2, ratAbs]
  exact ⟨hs, claim_c6 ⟨2, 0, 0, 3⟩ (4, 9) (2, 3) hs⟩

/-- Claim C7: `newton_method` raises NonConvergence exactly when all
`max_iter` iterations run (every linear solve succeeds) and no iteration's
pre-update point satisfies `‖f(x)‖ < tol`; if the first satisfying
iteration is `k` (its solve succeeding), it returns the post-update point
of iteration `k` with the 1-based count `k + 1`. -/
theorem claim_c7 (f : ℚ × ℚ → ℚ × ℚ) (J : ℚ × ℚ → Mat2) (x0 : ℚ × ℚ)
    (tol : ℚ) (n : Nat) :
    (newton_method f J x0 tol n = Except.error NumErr.nonConvergence ↔
      ((newtonIterF f J x0 n).isSome ∧
        ∀ k, k < n → ∀ y, newtonIterF f J x0 k = some y → ¬ normLt2 (f y) tol)) ∧
    (∀ k y dx, k < n → newtonIterF f J x0 k = some y →
      linalg_solve2 (J y) (neg2 (f y)) = some dx → normLt2 (f y) tol →
      (∀ j, j < k → ∀ z, newtonIterF f J x0 j = some z → ¬ normLt2 (f z) tol) →
      newton_method f J x0 tol n = Except.ok (add2 y dx, k + 1)) := by
  constructor
  · exact newtonGo_nonconv_iff f J tol n x0 0
  · intro k y dx hk hy hs ht hno
    have h := newtonGo_success f J tol k x0 0 n y dx hk hy hs ht hno
    rw [Nat.zero_add] at h
    exact h

/-- Witness for C7: with `f = id` and the identity Jacobian, one iteration
from `(1,0)` at tolerance `1/2` exhausts the budget and raises
NonConvergence, while from `(0,0)` at tolerance `1` the pre-update test
passes at iteration 0 and the post-update point is returned with count 1. -/
theorem claim_c7_w :
    newton_method (fun v => v) (fun _ => ⟨1, 0, 0, 1⟩) (1, 0) (1 / 2) 1 =
      Except.error NumErr.nonConvergence ∧
    newton_method (fun v => v) (fun _ => ⟨1, 0, 0, 1⟩) (0, 0) 1 2 =
      Except.ok ((0, 0), 1) := by
  have hsolve1 : linalg_solve2 ((fun _ => Mat2.mk 1 0 0 1) ((1 : ℚ), (0 : ℚ)))
      (neg2 ((fun v => v) ((1 : ℚ), (0 : ℚ)))) = some (-1, 0) := by
    norm_num [linalg_solve2, det2, neg2, -Prod.mk_zero_zero, -Prod.mk_one_one]
  have hiter1 : newtonIterF (fun v => v) (fun _ => ⟨1, 0, 0, 1⟩) (1, 0) 1 = some (0, 0) := by
    simp only [newtonIterF]
    rw [hsolve1]
    norm_num [newtonIterF, add2, -Prod.mk_zero_zero, -Prod.mk_one_one]
  have hsolve0 : linalg_solve2 ((fun _ => Mat2.mk 1 0 0 1) ((0 : ℚ), (0 : ℚ)))
      (neg2 ((fun v => v) ((0 : ℚ), (0 : ℚ)))) = some (0, 0) := by
    norm_num [linalg_solve2, det2, neg2, -Prod.mk_zero_zero, -Prod.mk_one_one]
  constructor
  · apply (claim_c7 (fun v => v) (fun _ => ⟨1, 0, 0, 1⟩) (1, 0) (1 / 2) 1).1.mpr
    constructor
    · rw [hiter1]
      rfl
    · intro k hk y hy
      have hk0 : k = 0 := by omega
      subst hk0
      have hy2 : some ((1 : ℚ), (0 : ℚ)) = some y := hy
      injection hy2 with hy2
      rw [← hy2]
      norm_num [normLt2, sumSq2]
  · have h := (claim_c7 (fun v => v) (fun _ => ⟨1, 0, 0, 1⟩) (0, 0) 1 2).2 0 (0, 0) (0, 0)
      (by omega) rfl hsolve0 (by norm_num [normLt2, sumSq2])
      (fun j hj => absurd hj (Nat.not_lt_zero j))
    rw [show add2 ((0 : ℚ), (0 : ℚ)) (0, 0) = (0, 0) from by
      norm_num [add2, -Prod.mk_zero_zero]] at h
    exact h

/-- Claim C9: when the damped solver terminates by tolerance at iteration
`k`, it does so because the accepted damped step `λ·Δ` has norm below the
tolerance (checked after acceptance), it returns the post-update trial
point `params + λ·Δ`, and the appended record holds the pre-update params,
the step `λ·Δ`, the old and new errors, and the damping factor `λ`. -/
theorem claim_c9 (C : GNCtx) (p0 : ℚ × ℚ) (n : Nat) (tol : ℚ) (mh k : Nat)
    (q s : ℚ × ℚ) (lam : ℚ) (t : ℚ × ℚ) (ne : ℚ)
    (hk : k < n) (hq : dgnIterF C mh p0 k = some q) (hs : gnStep C q = some s)
    (hacc : dampSearch (oldErrSq C) q s (oldErrSq C q) (mh + 1) 1 = some (lam, t, ne))
    (htol : normLt2 (smul2 lam s) tol)
    (hno : ∀ j, j < k → ¬ dgnSucc C tol mh p0 j) :
    gauss_newton_damped C p0 n tol mh =
      Except.ok (DGNOutcome.tolSuccess, add2 q (smul2 lam s),
        dgnHistC C mh p0 0 k ++ [⟨k, q, smul2 lam s, oldErrSq C q, ne, lam⟩]) := by
  have hqA : dgnIterA (gnStep C) (oldErrSq C) mh p0 k = some q := hq
  obtain ⟨-, ht2, -, -⟩ :=
    dampSearch_accept (oldErrSq C) q s (oldErrSq C q) (mh + 1) 1 lam t ne hacc
  have h := dgnLoop_success (gnStep C) (oldErrSq C) tol mh k p0 0 n q s lam t ne
    hk hqA hs hacc htol hno
  rw [dgnHistA_snoc (gnStep C) (oldErrSq C) mh k p0 0 q s lam t ne hqA hs hacc] at h
  rw [Nat.zero_add] at h
  rw [ht2] at h
  exact h

/-- Witness for C9: on the test model with a loose tolerance, the damped
solver accepts the full step at iteration 0, its norm is below the
tolerance, and the solver returns the trial point `(1,1)` with exactly the
claimed record. -/
theorem claim_c9_w :
    gauss_newton_damped fitCtx (0, 0) 20 10 8 =
      Except.ok (DGNOutcome.tolSuccess, (1, 1), [DGNRec.mk 0 (0, 0) (1, 1) 5 0 1]) := by
  have h := claim_c9 fitCtx (0, 0) 20 10 8 0 (0, 0) (1, 1) 1 (1, 1) 0 (by omega) rfl
    fit_step0 fit_searchP0 (by norm_num [normLt2, sumSq2, smul2])
    (fun j hj => absurd hj (Nat.not_lt_zero j))
  rw [show add2 ((0 : ℚ), (0 : ℚ)) (smul2 1 (1, 1)) = ((1 : ℚ), (1 : ℚ)) from by
    norm_num [add2, smul2, -Prod.mk_zero_zero, -Prod.mk_one_one]] at h
  rw [fit_err0] at h
  rw [show smul2 (1 : ℚ) (1, 1) = ((1 : ℚ), (1 : ℚ)) from by
    norm_num [smul2, -Prod.mk_one_one]] at h
  have hnil : dgnHistC fitCtx 8 (0, 0) 0 0 = [] := rfl
  rw [hnil] at h
  rw [List.nil_append] at h
  exact h

/-- Claim C10: with at least one iteration allowed, `newton_method` always
performs a full Newton update before its first convergence test: when the
initial guess already satisfies the tolerance test and the Jacobian there
is solvable, it returns `x0 + Δ` with count 1 (never `x0` with count 0);
and when the Jacobian at `x0` is singular it raises the solver error even
though the tolerance test would pass. -/
theorem claim_c10 (f : ℚ × ℚ → ℚ × ℚ) (J : ℚ × ℚ → Mat2) (x0 : ℚ × ℚ)
    (tol : ℚ) (n : Nat) :
    (∀ dx, 1 ≤ n → linalg_solve2 (J x0) (neg2 (f x0)) = some dx →
      normLt2 (f x0) tol → newton_method f J x0 tol n = Except.ok (add2 x0 dx, 1)) ∧
    (1 ≤ n → det2 (J x0) = 0 →
      newton_method f J x0 tol n = Except.error NumErr.singular) := by
  constructor
  · intro dx hn hs ht
    have h := newtonGo_success f J tol 0 x0 0 n x0 dx (by omega) rfl hs ht
      (fun j hj => absurd hj (Nat.not_lt_zero j))
    exact h
  · intro hn h0
    obtain ⟨m, rfl⟩ : ∃ m, n = m + 1 := ⟨n - 1, by omega⟩
    show newtonGo f J tol x0 0 (m + 1) = Except.error NumErr.singular
    simp only [newtonGo]
    have hnone : linalg_solve2 (J x0) (neg2 (f x0)) = none := by
      unfold linalg_solve2
      rw [if_pos h0]
    rw [hnone]

/-- Witness for C10: with `f = id`, identity Jacobian, start `(1,0)` and
tolerance `2` (already satisfied), `newton_method` returns the updated
point `(0,0)` with count 1; with a singular constant Jacobian it raises the
solver error. -/
theorem claim_c10_w :
    newton_method (fun v => v) (fun _ => ⟨1, 0, 0, 1⟩) (1, 0) 2 5 =
      Except.ok ((0, 0), 1) ∧
    newton_method (fun v => v) (fun _ => ⟨1, 2, 2, 4⟩) (0, 0) 1 5 =
      Except.error NumErr.singular := by
  constructor
  · have h := (claim_c10 (fun v => v) (fun _ => ⟨1, 0, 0, 1⟩) (1, 0) 2 5).1 (-1, 0)
      (by omega)
      (by norm_num [linalg_solve2, det2, neg2, -Prod.mk_zero_zero, -Prod.mk_one_one])
      (by norm_num [normLt2, sumSq2])
    rw [show add2 ((1 : ℚ), (0 : ℚ)) (-1, 0) = ((0 : ℚ), (0 : ℚ)) from by
      norm_num [add2, -Prod.mk_zero_zero]] at h
    exact h
  · exact (claim_c10 (fun v => v) (fun _ => ⟨1, 2, 2, 4⟩) (0, 0) 1 5).2 (by omega)
      (by norm_num [det2])

/-- Claim C8: for both Gauss-Newton solvers and every termination mode the
returned history has exactly one record per completed outer iteration:
budget exhaustion gives `max_iterations` records, tolerance success at
first passing iteration `k` gives `k + 1` records (that iteration appends
its record before returning), and stagnation at iteration `k` gives `k`
records (the stagnating iteration terminates before appending). -/
theorem claim_c8 (C : GNCtx) (p0 : ℚ × ℚ) (n : Nat) (tol : ℚ) (mh : Nat) :
    (∀ q, gnIterF C p0 n = some q → (∀ k, k < n → ¬ gnSucc C tol p0 k) →
      ∃ P h, gauss_newton C p0 n tol = Except.ok (P, h) ∧ h.length = n) ∧
    (∀ k q s, k < n → gnIterF C p0 k = some q → gnStep C q = some s →
      normLt2 s tol → (∀ j, j < k → ¬ gnSucc C tol p0 j) →
      ∃ P h, gauss_newton C p0 n tol = Except.ok (P, h) ∧ h.length = k + 1) ∧
    (∀ q, dgnIterF C mh p0 n = some q → (∀ k, k < n → ¬ dgnSucc C tol mh p0 k) →
      ∃ P h, gauss_newton_damped C p0 n tol mh =
        Except.ok (DGNOutcome.budget, P, h) ∧ h.length = n) ∧
    (∀ k q s lam t ne, k < n → dgnIterF C mh p0 k = some q → gnStep C q = some s →
      dampSearch (oldErrSq C) q s (oldErrSq C q) (mh + 1) 1 = some (lam, t, ne) →
      normLt2 (smul2 lam s) tol → (∀ j, j < k → ¬ dgnSucc C tol mh p0 j) →
      ∃ P h, gauss_newton_damped C p0 n tol mh =
        Except.ok (DGNOutcome.tolSuccess, P, h) ∧ h.length = k + 1) ∧
    (∀ k q, k < n → dgnIterF C mh p0 k = some q → dgnStag C mh p0 k →
      (∀ j, j < k → ¬ dgnSucc C tol mh p0 j) →
      ∃ P h, gauss_newton_damped C p0 n tol mh =
        Except.ok (DGNOutcome.stagnation, P, h) ∧ h.length = k) := by
  refine ⟨?_, ?_, ?_, ?_, ?_⟩
  · intro q hq hno
    exact ⟨q, gnHistA (gnStep C) (oldErrSq C) p0 0 n,
      gnLoop_budget (gnStep C) (oldErrSq C) tol n p0 0 q hq hno,
      gnHistA_length (gnStep C) (oldErrSq C) n p0 0 q hq⟩
  · intro k q s hk hq hs hnl hno
    exact ⟨add2 q s, gnHistA (gnStep C) (oldErrSq C) p0 0 (k + 1),
      gnLoop_success (gnStep C) (oldErrSq C) tol k p0 0 n q s hk hq hs hnl hno,
      gnHistA_length (gnStep C) (oldErrSq C) (k + 1) p0 0 (add2 q s)
        (gnIterA_snoc (gnStep C) k p0 q s hq hs)⟩
  · intro q hq hno
    exact ⟨q, dgnHistA (gnStep C) (oldErrSq C) mh p0 0 n,
      dgnLoop_budget (gnStep C) (oldErrSq C) tol mh n p0 0 q hq hno,
      dgnHistA_length (gnStep C) (oldErrSq C) mh n p0 0 q hq⟩
  · intro k q s lam t ne hk hq hs hacc hnl hno
    exact ⟨t, dgnHistA (gnStep C) (oldErrSq C) mh p0 0 (k + 1),
      dgnLoop_success (gnStep C) (oldErrSq C) tol mh k p0 0 n q s lam t ne hk hq hs
        hacc hnl hno,
      dgnHistA_length (gnStep C) (oldErrSq C) mh (k + 1) p0 0 t
        (dgnIterA_snoc (gnStep C) (oldErrSq C) mh k p0 q s lam t ne hq hs hacc)⟩
  · intro k q hk hq hstag hno
    obtain ⟨q2, s, hq2, hs, hsearch⟩ := hstag
    have hqA : dgnIterA (gnStep C) (oldErrSq C) mh p0 k = some q := hq
    rw [hqA] at hq2
    injection hq2 with hq2
    subst hq2
    exact ⟨q, dgnHistA (gnStep C) (oldErrSq C) mh p0 0 k,
      dgnLoop_stag (gnStep C) (oldErrSq C) tol mh k p0 0 n q s hk hqA hs hsearch hno,
      dgnHistA_length (gnStep C) (oldErrSq C) mh k p0 0 q hqA⟩

/-- Witness for C8: on the test model, all five termination modes produce
histories of exactly the number of completed iterations: budget runs of
length 1 (undamped and damped), success runs of lengths 2 and 1, and a
stagnation run of length 1. -/
theorem claim_c8_w :
    (∃ P h, gauss_newton fitCtx (0, 0) 1 (1 / 1000) = Except.ok (P, h) ∧
      h.length = 1) ∧
    (∃ P h, gauss_newton fitCtx (0, 0) 3 (1 / 1000) = Except.ok (P, h) ∧
      h.length = 2) ∧
    (∃ P h, gauss_newton_damped fitCtx (0, 0) 1 (1 / 1000) 8 =
      Except.ok (DGNOutcome.budget, P, h) ∧ h.length = 1) ∧
    (∃ P h, gauss_newton_damped fitCtx (0, 0) 20 10 8 =
      Except.ok (DGNOutcome.tolSuccess, P, h) ∧ h.length = 1) ∧
    (∃ P h, gauss_newton_damped fitCtx (0, 0) 2 (1 / 1000) 8 =
      Except.ok (DGNOutcome.stagnation, P, h) ∧ h.length = 1) := by
  refine ⟨?_, ?_, ?_, ?_, ?_⟩
  · exact (claim_c8 fitCtx (0, 0) 1 (1 / 1000) 8).1 (1, 1) fit_iter1
      (fit_nosucc_gn (1 / 1000) (by norm_num [normLt2, sumSq2]))
  · exact (claim_c8 fitCtx (0, 0) 3 (1 / 1000) 8).2.1 1 (1, 1) (0, 0) (by omega)
      fit_iter1 fit_step1 (by norm_num [normLt2, sumSq2])
      (fit_nosucc_gn (1 / 1000) (by norm_num [normLt2, sumSq2]))
  · exact (claim_c8 fitCtx (0, 0) 1 (1 / 1000) 8).2.2.1 (1, 1) fit_diter1
      (fit_nosucc_dgn (1 / 1000) (by norm_num [normLt2, sumSq2, smul2]))
  · exact (claim_c8 fitCtx (0, 0) 20 10 8).2.2.2.1 0 (0, 0) (1, 1) 1 (1, 1) 0
      (by omega) rfl fit_step0 fit_searchP0 (by norm_num [normLt2, sumSq2, smul2])
      (fun j hj => absurd hj (Nat.not_lt_zero j))
  · exact (claim_c8 fitCtx (0, 0) 2 (1 / 1000) 8).2.2.2.2 1 (1, 1) (by omega)
      fit_diter1 ⟨(1, 1), (0, 0), fit_diter1, fit_step1, fit_searchP1⟩
      (fit_nosucc_dgn (1 / 1000) (by norm_num [normLt2, sumSq2, smul2]))
